import Mathlib

/-!
Verification development for the git-gen command-line utility.

The definitions below are a shallow embedding of the TypeScript sources:
`src/generate.ts`, `index.ts`, `src/git.ts` and the queue-based streaming
variant of `generate` (the file holding `thinkingIterable` / `consumeStream`).
Strings are modelled as Lean `String` / `List Char`; the JavaScript regular
expressions in `parseResponse` are modelled by explicit leftmost-occurrence
search, justified at the definition site.
-/

namespace GitGen

/-- First index at which `pat` occurs as a contiguous sublist of `s`
(leftmost occurrence), or `none`.  Models `String.prototype.match` scanning
from the left. -/
def findSub (pat : List Char) : List Char → Option Nat
  | [] => if pat.isPrefixOf ([] : List Char) then some 0 else none
  | c :: t => if pat.isPrefixOf (c :: t) then some 0 else (findSub pat t).map (· + 1)

/-- First index `≥ start` at which `pat` occurs in `s`. -/
def findSubFrom (pat s : List Char) (start : Nat) : Option Nat :=
  (findSub pat (s.drop start)).map (· + start)

/-- Model of a JavaScript match `/pat1([\s\S]*?)(?=pat2)/` on `s`:
the capture group of the leftmost match, if any.

Justification: the regex engine tries start positions left to right; at a
start position `i` the whole pattern matches iff `pat1` occurs at `i` and
`pat2` occurs at some `j ≥ i + pat1.length` (the lazy `[\s\S]*?` then takes
the least such `j`).  Whether such a `j` exists is antitone in `i`, so the
regex matches somewhere iff it matches at the *first* occurrence of `pat1`;
hence taking the first occurrence of `pat1` and then the first occurrence of
`pat2` after it is exactly the leftmost-lazy semantics. -/
def captureBetween (pat1 pat2 s : List Char) : Option (List Char) :=
  match findSub pat1 s with
  | none => none
  | some i =>
    match findSubFrom pat2 s (i + pat1.length) with
    | none => none
    | some j => some ((s.take j).drop (i + pat1.length))

/-- Model of a JavaScript match `/pat1([\s\S]*)/` on `s`: the greedy capture
runs to the end of the string, starting after the leftmost occurrence of
`pat1`. -/
def captureToEnd (pat1 s : List Char) : Option (List Char) :=
  (findSub pat1 s).map (fun i => s.drop (i + pat1.length))

/-- Leading/trailing-whitespace trim on character lists; models
`String.prototype.trim()` (restricted to ASCII whitespace, which is all the
program ever produces around its sections). -/
def trimChars (l : List Char) : List Char :=
  ((l.dropWhile Char.isWhitespace).reverse.dropWhile Char.isWhitespace).reverse

/-- The trim above lifted to `String`. -/
def trimString (s : String) : String :=
  String.mk (trimChars s.toList)

/-- The record returned by `parseResponse` (interface `ParsedResponse` in
`src/generate.ts`). -/
structure ParsedResponse where
  commitMessage : String
  prTitle : String
  prBody : String
deriving DecidableEq

/-- Embedding of `parseResponse` (`src/generate.ts` lines 198-208):

```
const commitMatch  = text.match(/COMMIT_MESSAGE\n([\s\S]*?)(?=\nPR_TITLE\n)/);
const prTitleMatch = text.match(/PR_TITLE\n([\s\S]*?)(?=\nPR_BODY\n)/);
const prBodyMatch  = text.match(/PR_BODY\n([\s\S]*)/);
return { commitMessage: commitMatch?.[1]?.trim() ?? text,
         prTitle:       prTitleMatch?.[1]?.trim() ?? "",
         prBody:        prBodyMatch?.[1]?.trim() ?? "" };
```
-/
def parseResponse (text : String) : ParsedResponse :=
  let s := text.toList
  { commitMessage :=
      match captureBetween "COMMIT_MESSAGE\n".toList "\nPR_TITLE\n".toList s with
      | some c => trimString (String.mk c)
      | none => text
    prTitle :=
      match captureBetween "PR_TITLE\n".toList "\nPR_BODY\n".toList s with
      | some c => trimString (String.mk c)
      | none => ""
    prBody :=
      match captureToEnd "PR_BODY\n".toList s with
      | some c => trimString (String.mk c)
      | none => "" }

/-- Embedding of `getGitDiff` (`src/git.ts` lines 3-9), with the two diffs the
subprocesses would return passed in as arguments:

```
const staged = await $`git diff --cached`.text();
if (staged.trim()) return staged;
const unstaged = await $`git diff`.text();
return unstaged;
```
(A JavaScript string is truthy iff non-empty, so the test is
`staged.trim() !== ""`.) -/
def getGitDiff (staged unstaged : String) : String :=
  if trimString staged ≠ "" then staged else unstaged

/-- Embedding of `detectCompany` (`src/generate.ts` lines 18-25), with the
working directory and the available prompt names passed in:

```
for (const name of prompts) {
  if (cwd.includes(`/${name}/`)) return name;
}
return null;
```
-/
def detectCompany (cwd : String) (prompts : List String) : Option String :=
  prompts.find? (fun name => (findSub ("/" ++ name ++ "/").toList cwd.toList).isSome)

/-! ### The thinking queue

Embedding of the queue-based async iterable in the streaming variant of
`generate` (`pushThinking` / `endThinking` / `thinkingIterable`):

```
let thinkingResolve = null;           -- modelled by `waiting`
const thinkingQueue = [];             -- modelled by `queue`
let thinkingDone = false;             -- modelled by `done`
```
`pushThinking` resolves a waiting consumer directly (delivering the chunk) or
appends to the queue; `endThinking` sets `done` and, if a consumer is
waiting, resolves it with the end-of-iteration signal; the iterator's `next`
serves from the queue first, then reports `done`, and otherwise parks the
consumer.  A delivery of a chunk is recorded as `some chunk`, a delivery of
the end-of-iteration signal as `none`. -/

/-- Queue state shared by producer (`pushThinking` / `endThinking`) and
consumer (`thinkingIterable`'s `next`). -/
structure QState where
  queue : List String
  waiting : Bool
  done : Bool
deriving DecidableEq

/-- The three operations that can act on the queue state: the producer pushes
a reasoning chunk or ends the stream; the consumer requests the next value. -/
inductive QOp where
  | push (c : String)
  | next
  | endq
deriving DecidableEq

/-- One operation on the queue.  Returns the new state together with the list
of values delivered to the consumer by this operation (zero or one).

* `push c`: `pushThinking` — if a consumer is parked, resolve it with `c`
  (immediate delivery); otherwise append `c` to the queue.  Never waits.
* `endq`: `endThinking` — mark done; a parked consumer receives the
  end-of-iteration signal.
* `next`: the iterator's `next()` — serve the queue head if any, else report
  `done` if the stream has ended, else park the consumer. -/
def qstep (q : QState) : QOp → QState × List (Option String)
  | .push c =>
    if q.waiting then ({ q with waiting := false }, [some c])
    else ({ q with queue := q.queue ++ [c] }, [])
  | .endq =>
    if q.waiting then ({ q with done := true, waiting := false }, [none])
    else ({ q with done := true }, [])
  | .next =>
    match q.queue with
    | c :: t => ({ q with queue := t }, [some c])
    | [] =>
      if q.done then (q, [none])
      else ({ q with waiting := true }, [])

/-- Run a sequence of queue operations, accumulating everything delivered to
the consumer, in delivery order. -/
def qrun (q : QState) : List QOp → QState × List (Option String)
  | [] => (q, [])
  | op :: t =>
    let r := qstep q op
    let s := qrun r.1 t
    (s.1, r.2 ++ s.2)

/-- The chunks pushed by a sequence of operations, in push order. -/
def pushedChunks (ops : List QOp) : List String :=
  ops.filterMap fun op => match op with
    | .push c => some c
    | _ => none

/-- The chunks (not end-of-iteration signals) in a delivery log. -/
def deliveredChunks (out : List (Option String)) : List String :=
  out.filterMap id

/-- Returns `true` for producer pushes and consumer requests; `false` only for the
end-of-stream operation. -/
def isPushOrNext : QOp → Bool
  | .endq => false
  | _ => true

/-- The initial queue state: empty queue, no parked consumer, not done. -/
def initQ : QState := ⟨[], false, false⟩

/-- Well-formedness maintained by the queue: a consumer parks only on an
empty queue, so `waiting` implies an empty queue. -/
def QWF (q : QState) : Prop := q.waiting = true → q.queue = []

/-! ### The generation session stream fold

Embedding of the `for await (const message of stream)` loop of
`consumeStream` in the streaming variant of `generate` (and, for the
`responseText` / failure logic, identically of `generate` in
`src/generate.ts` lines 121-150). -/

/-- The `event.delta` payloads the loop inspects. -/
inductive Delta where
  | thinkingDelta (s : String)
  | textDelta (s : String)
  | otherDelta
deriving DecidableEq

/-- The `message.event` variants the loop inspects. -/
inductive SEvent where
  | contentBlockDelta (d : Delta)
  | contentBlockStop
  | otherEvent
deriving DecidableEq

/-- The SDK messages the loop inspects: incremental stream events, the terminal
`result` message (with its `subtype` string, `"success"` on success), and
anything else (ignored by the loop). -/
inductive Message where
  | streamEvent (e : SEvent)
  | result (subtype : String)
  | otherMessage
deriving DecidableEq

/-- The loop's mutable state: the answer accumulator `responseText`, the
`thinkingStarted` flag, the thinking queue, and `streamError`. -/
structure SessionState where
  responseText : String
  thinkingStarted : Bool
  q : QState
  streamError : Option String
deriving DecidableEq

/-- State at loop entry. -/
def initSession : SessionState := ⟨"", false, initQ, none⟩

/-- Effect of one `stream_event` message on the loop state:

* `thinking_delta`: set `thinkingStarted`, `pushThinking(delta.thinking)`;
* `text_delta`: `responseText += delta.text`;
* `content_block_stop`: `if (thinkingStarted && !thinkingDone) endThinking()`;
* anything else: no effect. -/
def applyEvent (st : SessionState) : SEvent → SessionState
  | .contentBlockDelta (.thinkingDelta s) =>
    { st with thinkingStarted := true, q := (qstep st.q (.push s)).1 }
  | .contentBlockDelta (.textDelta s) =>
    { st with responseText := st.responseText ++ s }
  | .contentBlockDelta .otherDelta => st
  | .contentBlockStop =>
    if st.thinkingStarted && !st.q.done then { st with q := (qstep st.q .endq).1 }
    else st
  | .otherEvent => st

/-- After the loop: `if (!thinkingDone) endThinking();`. -/
def finishStream (st : SessionState) : SessionState :=
  if st.q.done then st else { st with q := (qstep st.q .endq).1 }

/-- The loop itself: fold messages until the first `result` message (which
records `streamError` when its subtype is not `"success"` and then breaks) or
until stream exhaustion, then run the after-loop `endThinking`. -/
def consumeStream (st : SessionState) : List Message → SessionState
  | [] => finishStream st
  | m :: rest =>
    match m with
    | .streamEvent e => consumeStream (applyEvent st e) rest
    | .result sub =>
      finishStream (if sub ≠ "success" then { st with streamError := some sub } else st)
    | .otherMessage => consumeStream st rest

/-- What the caller does with the folded stream (streaming `generate`,
after the loop): a recorded `streamError` is fatal; a blank `responseText`
is the distinct "Empty response from Claude." error; otherwise the response
is parsed. -/
inductive RunOutcome where
  | failure (reason : String)
  | emptyResponse
  | success (parsed : ParsedResponse)
deriving DecidableEq

/-- Run one generation over a message stream: fold the stream, then apply the
caller's checks in source order (`if (streamError) exit(1)`, then
`if (!responseText.trim()) exit(1)`, then `parseResponse`). -/
def runGenerate (msgs : List Message) : RunOutcome :=
  let st := consumeStream initSession msgs
  match st.streamError with
  | some r => .failure r
  | none =>
    if trimString st.responseText = "" then .emptyResponse
    else .success (parseResponse st.responseText)

/-- The process exit status each outcome produces: both error outcomes call
`process.exit(1)`; on success the run continues (no exit yet). -/
def exitCode : RunOutcome → Option Nat
  | .failure _ => some 1
  | .emptyResponse => some 1
  | .success _ => none

/-- A message that is a reasoning or answer delta (the interleavings of
claim C1). -/
def isDeltaEvent : Message → Bool
  | .streamEvent (.contentBlockDelta (.thinkingDelta _)) => true
  | .streamEvent (.contentBlockDelta (.textDelta _)) => true
  | _ => false

/-- A terminal `result` message. -/
def isResultMsg : Message → Bool
  | .result _ => true
  | _ => false

/-- An answer (`text_delta`) message. -/
def isTextDelta : Message → Bool
  | .streamEvent (.contentBlockDelta (.textDelta _)) => true
  | _ => false

/-- The `text_delta` payloads of a stream, in emission order. -/
def answerPayloads (msgs : List Message) : List String :=
  msgs.filterMap fun m => match m with
    | .streamEvent (.contentBlockDelta (.textDelta s)) => some s
    | _ => none

/-- Concatenation of a list of strings, in order. -/
def concatList : List String → String
  | [] => ""
  | s :: t => s ++ concatList t

/-! ### Queue lemmas -/

/-- Every queue operation preserves well-formedness. -/
theorem qstep_wf (q : QState) (op : QOp) (h : QWF q) : QWF (qstep q op).1 := by
  cases op with
  | push c =>
    by_cases hw : q.waiting
    · simp only [qstep, hw, if_true]
      intro hfalse
      simp at hfalse
    · simp only [qstep, hw, if_false]
      intro hfalse
      simp [hw] at hfalse
  | next =>
    cases hq : q.queue with
    | cons c t =>
      simp only [qstep, hq]
      intro hw
      have := h hw
      rw [hq] at this
      exact absurd this (by simp)
    | nil =>
      by_cases hd : q.done
      · intro _
        simp [qstep, hq, hd]
      · intro _
        simp [qstep, hq, hd]
  | endq =>
    by_cases hw : q.waiting
    · simp only [qstep, hw, if_true]
      intro hfalse
      simp at hfalse
    · simp only [qstep, hw, if_false]
      intro hfalse
      simp [hw] at hfalse

/-- The chunks a single operation pushes, if any. -/
def pushedOne : QOp → List String
  | .push c => [c]
  | _ => []

/-- One step neither loses nor reorders chunks: what the step delivered
followed by what remains queued is what was queued before plus what the step
pushed. -/
theorem qstep_chunks (q : QState) (op : QOp) (h : QWF q) :
    deliveredChunks (qstep q op).2 ++ (qstep q op).1.queue = q.queue ++ pushedOne op := by
  cases op with
  | push c =>
    by_cases hw : q.waiting
    · have hq : q.queue = [] := h hw
      simp [qstep, hw, hq, deliveredChunks, pushedOne]
    · simp [qstep, hw, deliveredChunks, pushedOne]
  | next =>
    cases hq : q.queue with
    | cons c t => simp [qstep, hq, deliveredChunks, pushedOne]
    | nil =>
      by_cases hd : q.done
      · simp [qstep, hq, hd, deliveredChunks, pushedOne]
      · simp [qstep, hq, hd, deliveredChunks, pushedOne]
  | endq =>
    by_cases hw : q.waiting
    · simp [qstep, hw, deliveredChunks, pushedOne]
    · simp [qstep, hw, deliveredChunks, pushedOne]

/-- Invariant of any run: the chunks delivered so far, followed by the chunks
still queued, are exactly the chunks pushed so far, in order — and
well-formedness is preserved. -/
theorem qrun_inv (ops : List QOp) (q : QState) (h : QWF q) :
    deliveredChunks (qrun q ops).2 ++ (qrun q ops).1.queue = q.queue ++ pushedChunks ops
    ∧ QWF (qrun q ops).1 := by
  induction ops generalizing q with
  | nil => simp [qrun, deliveredChunks, pushedChunks, h]
  | cons op t ih =>
    obtain ⟨iht, ihwf⟩ := ih (qstep q op).1 (qstep_wf q op h)
    refine ⟨?_, ihwf⟩
    have hstep := qstep_chunks q op h
    have hpush : pushedChunks (op :: t) = pushedOne op ++ pushedChunks t := by
      cases op <;> simp [pushedChunks, pushedOne]
    calc deliveredChunks (qrun q (op :: t)).2 ++ (qrun q (op :: t)).1.queue
        = (deliveredChunks (qstep q op).2 ++ deliveredChunks (qrun (qstep q op).1 t).2)
            ++ (qrun (qstep q op).1 t).1.queue := by
          simp [qrun, deliveredChunks, List.filterMap_append]
      _ = deliveredChunks (qstep q op).2
            ++ (deliveredChunks (qrun (qstep q op).1 t).2 ++ (qrun (qstep q op).1 t).1.queue) := by
          simp [List.append_assoc]
      _ = deliveredChunks (qstep q op).2 ++ ((qstep q op).1.queue ++ pushedChunks t) := by
          rw [iht]
      _ = (deliveredChunks (qstep q op).2 ++ (qstep q op).1.queue) ++ pushedChunks t := by
          simp [List.append_assoc]
      _ = (q.queue ++ pushedOne op) ++ pushedChunks t := by rw [hstep]
      _ = q.queue ++ pushedChunks (op :: t) := by simp [hpush, List.append_assoc]

/-- While only pushes and next-requests happen (no end-of-stream), nothing
delivered is the end-of-iteration signal and the queue is not done. -/
theorem qrun_no_done_signal (ops : List QOp) (q : QState)
    (hops : ∀ op ∈ ops, isPushOrNext op = true) (hd : q.done = false) :
    (∀ x ∈ (qrun q ops).2, x ≠ none) ∧ (qrun q ops).1.done = false := by
  induction ops generalizing q with
  | nil => simp [qrun, hd]
  | cons op t ih =>
    have hstep : (∀ x ∈ (qstep q op).2, x ≠ none) ∧ (qstep q op).1.done = false := by
      cases op with
      | push c =>
        by_cases hw : q.waiting <;> simp [qstep, hw, hd]
      | next =>
        cases hq : q.queue with
        | cons c t' => simp [qstep, hq, hd]
        | nil => simp [qstep, hq, hd]
      | endq =>
        have := hops .endq (by simp)
        simp [isPushOrNext] at this
    obtain ⟨ih1, ih2⟩ := ih (qstep q op).1 (fun o ho => hops o (by simp [ho])) hstep.2
    refine ⟨?_, ih2⟩
    intro x hx
    simp only [qrun, List.mem_append] at hx
    rcases hx with hx | hx
    · exact hstep.1 x hx
    · exact ih1 x hx

/-- A list of optional values without `none` is the `some`-image of its
chunk list. -/
theorem eq_map_some_of_no_none (out : List (Option String)) (h : ∀ x ∈ out, x ≠ none) :
    out = (deliveredChunks out).map some := by
  induction out with
  | nil => simp [deliveredChunks]
  | cons x t ih =>
    cases x with
    | none => exact absurd rfl (h none (by simp))
    | some a =>
      simp only [deliveredChunks, List.filterMap_cons, id]
      simpa [deliveredChunks] using ih (fun y hy => h y (by simp [hy]))

/-- Once the stream has ended and no consumer is parked, enough
next-requests deliver every queued chunk, in order, before the
end-of-iteration signal. -/
theorem qrun_drain (n : Nat) (q : QState)
    (hd : q.done = true) (hw : q.waiting = false) (hn : q.queue.length ≤ n) :
    (qrun q (List.replicate n .next)).2
      = q.queue.map some ++ List.replicate (n - q.queue.length) none := by
  induction n generalizing q with
  | zero =>
    have hq : q.queue = [] := List.eq_nil_of_length_eq_zero (Nat.le_zero.mp hn)
    simp [qrun, hq]
  | succ n ih =>
    rw [List.replicate_succ]
    cases hq : q.queue with
    | cons c t =>
      have hlen : t.length ≤ n := by
        have := hn
        rw [hq] at this
        simpa using this
      have := ih { q with queue := t } (by simpa using hd) (by simpa using hw) (by simpa using hlen)
      simp only [qrun, qstep, hq]
      rw [this]
      simp [hq, Nat.succ_sub_succ]
    | nil =>
      have := ih q hd hw (by simp [hq])
      simp only [qrun, qstep, hq, hd, if_true]
      rw [this]
      simp [hq, List.replicate_succ]

/-- Running a concatenation of operation lists concatenates the deliveries. -/
theorem qrun_append (a b : List QOp) (q : QState) :
    qrun q (a ++ b)
      = ((qrun (qrun q a).1 b).1, (qrun q a).2 ++ (qrun (qrun q a).1 b).2) := by
  induction a generalizing q with
  | nil => simp [qrun]
  | cons op t ih =>
    simp only [List.cons_append, qrun, List.append_eq]
    rw [ih (qstep q op).1]
    simp [List.append_assoc]

/-- C4: the queue between stream ingestion and the live reasoning
observer is order-preserving and lossless.  For every interleaving of
producer pushes and consumer requests (first conjunct: at any point, the
chunks delivered so far followed by the chunks still queued are exactly the
chunks pushed so far, in push order — so every chunk is delivered at most
once, in order, and none is dropped), ending the stream and letting the
consumer keep requesting delivers exactly the pushed chunks, in push order,
all before any end-of-iteration signal (second conjunct).  Ingestion never
blocks: `qstep` on a push is total and transitions regardless of the
consumer's state. -/
theorem c4_thinking_queue_order_lossless (ops : List QOp)
    (h : ∀ op ∈ ops, isPushOrNext op = true) :
    deliveredChunks (qrun initQ ops).2 ++ (qrun initQ ops).1.queue = pushedChunks ops
    ∧ ∃ m,
      (qrun initQ (ops ++ QOp.endq :: List.replicate (pushedChunks ops).length QOp.next)).2
        = (pushedChunks ops).map some ++ List.replicate m none := by
  have hwf0 : QWF initQ := by intro _; rfl
  obtain ⟨hinv, hwf⟩ := qrun_inv ops initQ hwf0
  rw [show initQ.queue = [] from rfl, List.nil_append] at hinv
  refine ⟨hinv, ?_⟩
  obtain ⟨hnn, hdone⟩ := qrun_no_done_signal ops initQ h rfl
  have hout1 : (qrun initQ ops).2 = (deliveredChunks (qrun initQ ops).2).map some :=
    eq_map_some_of_no_none _ hnn
  rw [qrun_append]
  simp only [qrun]
  by_cases hw : (qrun initQ ops).1.waiting
  · -- a consumer is parked when the stream ends: the queue is empty and the
    -- end signal resolves it; every further request reports done
    have hqnil : (qrun initQ ops).1.queue = [] := hwf hw
    have hstep : qstep (qrun initQ ops).1 .endq
        = ({ (qrun initQ ops).1 with done := true, waiting := false }, [none]) := by
      simp [qstep, hw]
    have hdrain := qrun_drain (pushedChunks ops).length
      { (qrun initQ ops).1 with done := true, waiting := false }
      rfl rfl (by simp [hqnil])
    have hchunks : deliveredChunks (qrun initQ ops).2 = pushedChunks ops := by
      rw [hqnil, List.append_nil] at hinv
      exact hinv
    refine ⟨(pushedChunks ops).length + 1, ?_⟩
    rw [hstep]
    simp only
    rw [hdrain]
    rw [hout1, hchunks]
    simp [hqnil, List.replicate_succ]
  · -- no consumer parked: the end signal just marks done, and the remaining
    -- queue is served before any done report
    have hstep : qstep (qrun initQ ops).1 .endq
        = ({ (qrun initQ ops).1 with done := true }, []) := by
      simp [qstep, hw]
    have hlen : (qrun initQ ops).1.queue.length ≤ (pushedChunks ops).length := by
      have := congrArg List.length hinv
      simp only [List.length_append] at this
      omega
    have hdrain := qrun_drain (pushedChunks ops).length
      { (qrun initQ ops).1 with done := true }
      rfl (by simpa using eq_false_of_ne_true hw) (by simpa using hlen)
    refine ⟨(pushedChunks ops).length - (qrun initQ ops).1.queue.length, ?_⟩
    rw [hstep]
    simp only
    rw [hdrain]
    rw [hout1]
    simp only [List.nil_append]
    rw [← List.append_assoc, ← List.map_append, hinv]

/-- Witness for C4 at a concrete interleaving: two pushes with a consumer
request in between. -/
theorem c4_thinking_queue_order_lossless_witness :
    (∀ op ∈ ([.push "alpha", .next, .push "beta"] : List QOp), isPushOrNext op = true)
    ∧ (deliveredChunks (qrun initQ [.push "alpha", .next, .push "beta"]).2
          ++ (qrun initQ [.push "alpha", .next, .push "beta"]).1.queue
        = pushedChunks [.push "alpha", .next, .push "beta"]
      ∧ ∃ m,
        (qrun initQ ([.push "alpha", .next, .push "beta"]
            ++ QOp.endq :: List.replicate
              (pushedChunks [.push "alpha", .next, .push "beta"]).length QOp.next)).2
          = (pushedChunks [.push "alpha", .next, .push "beta"]).map some
              ++ List.replicate m none) :=
  ⟨by decide, c4_thinking_queue_order_lossless _ (by decide)⟩

/-! ### Stream-fold lemmas -/

/-- Only `text_delta` events touch the answer accumulator. -/
theorem applyEvent_responseText (st : SessionState) (e : SEvent)
    (h : isTextDelta (.streamEvent e) = false) :
    (applyEvent st e).responseText = st.responseText := by
  cases e with
  | contentBlockDelta d =>
    cases d with
    | thinkingDelta s => rfl
    | textDelta s => simp [isTextDelta] at h
    | otherDelta => rfl
  | contentBlockStop =>
    simp only [applyEvent]
    split <;> rfl
  | otherEvent => rfl

/-- No stream event touches `streamError`. -/
theorem applyEvent_streamError (st : SessionState) (e : SEvent) :
    (applyEvent st e).streamError = st.streamError := by
  cases e with
  | contentBlockDelta d => cases d <;> rfl
  | contentBlockStop =>
    simp only [applyEvent]
    split <;> rfl
  | otherEvent => rfl

/-- The after-loop `endThinking` only touches the queue. -/
theorem finishStream_responseText (st : SessionState) :
    (finishStream st).responseText = st.responseText := by
  simp only [finishStream]
  split <;> rfl

/-- The after-loop `endThinking` only touches the queue. -/
theorem finishStream_streamError (st : SessionState) :
    (finishStream st).streamError = st.streamError := by
  simp only [finishStream]
  split <;> rfl

/-- The loop breaks at the first `result` message: whatever follows it is
never folded. -/
theorem consume_result_stops (msgs : List Message) (r : String) (extra : List Message)
    (st : SessionState) (h : ∀ m ∈ msgs, isResultMsg m = false) :
    consumeStream st (msgs ++ Message.result r :: extra)
      = consumeStream st (msgs ++ [Message.result r]) := by
  induction msgs generalizing st with
  | nil => rfl
  | cons m t ih =>
    cases m with
    | streamEvent e =>
      simp only [List.cons_append, consumeStream, List.append_eq]
      exact ih (applyEvent st e) (fun x hx => h x (by simp [hx]))
    | result s =>
      have := h (.result s) (by simp)
      simp [isResultMsg] at this
    | otherMessage =>
      simp only [List.cons_append, consumeStream, List.append_eq]
      exact ih st (fun x hx => h x (by simp [hx]))

/-- Value of `streamError` after a stream whose only `result` message is terminal:
set to the subtype exactly when it is not `"success"`. -/
theorem consume_result_streamError (msgs : List Message) (r : String) (st : SessionState)
    (h : ∀ m ∈ msgs, isResultMsg m = false) :
    (consumeStream st (msgs ++ [Message.result r])).streamError
      = if r = "success" then st.streamError else some r := by
  induction msgs generalizing st with
  | nil =>
    by_cases hr : r = "success"
    · simp [consumeStream, hr, finishStream_streamError]
    · simp [consumeStream, hr, finishStream_streamError]
  | cons m t ih =>
    cases m with
    | streamEvent e =>
      simp only [List.cons_append, consumeStream, List.append_eq]
      rw [ih (applyEvent st e) (fun x hx => h x (by simp [hx])), applyEvent_streamError]
    | result s =>
      have := h (.result s) (by simp)
      simp [isResultMsg] at this
    | otherMessage =>
      simp only [List.cons_append, consumeStream, List.append_eq]
      exact ih st (fun x hx => h x (by simp [hx]))

/-- Without `text_delta` events the answer accumulator is untouched. -/
theorem consume_result_responseText_noText (msgs : List Message) (r : String)
    (st : SessionState) (h1 : ∀ m ∈ msgs, isResultMsg m = false)
    (h2 : ∀ m ∈ msgs, isTextDelta m = false) :
    (consumeStream st (msgs ++ [Message.result r])).responseText = st.responseText := by
  induction msgs generalizing st with
  | nil =>
    simp only [List.nil_append, consumeStream]
    rw [finishStream_responseText]
    split <;> rfl
  | cons m t ih =>
    cases m with
    | streamEvent e =>
      simp only [List.cons_append, consumeStream, List.append_eq]
      rw [ih (applyEvent st e) (fun x hx => h1 x (by simp [hx])) (fun x hx => h2 x (by simp [hx]))]
      exact applyEvent_responseText st e (h2 (.streamEvent e) (by simp))
    | result s =>
      have := h1 (.result s) (by simp)
      simp [isResultMsg] at this
    | otherMessage =>
      simp only [List.cons_append, consumeStream, List.append_eq]
      exact ih st (fun x hx => h1 x (by simp [hx])) (fun x hx => h2 x (by simp [hx]))

/-- Folding an interleaving of reasoning and answer deltas appends exactly
the answer payloads, in order, to the accumulator. -/
theorem consume_deltas_responseText (msgs : List Message) (st : SessionState)
    (h : ∀ m ∈ msgs, isDeltaEvent m = true) :
    (consumeStream st (msgs ++ [Message.result "success"])).responseText
      = st.responseText ++ concatList (answerPayloads msgs) := by
  induction msgs generalizing st with
  | nil =>
    simp only [List.nil_append, consumeStream, answerPayloads, List.filterMap_nil, concatList]
    rw [finishStream_responseText, if_neg (by simp), String.append_empty]
  | cons m t ih =>
    have hm := h m (by simp)
    cases m with
    | streamEvent e =>
      cases e with
      | contentBlockDelta d =>
        cases d with
        | thinkingDelta s =>
          simp only [List.cons_append, consumeStream, List.append_eq]
          rw [ih (applyEvent st (.contentBlockDelta (.thinkingDelta s)))
            (fun x hx => h x (by simp [hx]))]
          simp [applyEvent, answerPayloads]
        | textDelta s =>
          simp only [List.cons_append, consumeStream, List.append_eq]
          rw [ih (applyEvent st (.contentBlockDelta (.textDelta s)))
            (fun x hx => h x (by simp [hx]))]
          simp only [applyEvent, answerPayloads, List.filterMap_cons]
          rw [String.append_assoc]
          rfl
        | otherDelta => simp [isDeltaEvent] at hm
      | contentBlockStop => simp [isDeltaEvent] at hm
      | otherEvent => simp [isDeltaEvent] at hm
    | result s => simp [isDeltaEvent] at hm
    | otherMessage => simp [isDeltaEvent] at hm

/-- C1: for every stream that interleaves reasoning and answer deltas
arbitrarily and then reports `Result(Success)`, the final `responseText` is
the concatenation of the `text_delta` payloads alone, in emission order;
`thinking_delta` events contribute nothing. -/
theorem c1_answer_text_ignores_reasoning (msgs : List Message)
    (h : ∀ m ∈ msgs, isDeltaEvent m = true) :
    (consumeStream initSession (msgs ++ [Message.result "success"])).responseText
      = concatList (answerPayloads msgs) := by
  have hgen := consume_deltas_responseText msgs initSession h
  rwa [show initSession.responseText = "" from rfl, String.empty_append] at hgen

/-- Witness for C1 at a concrete interleaving of two reasoning and two
answer deltas. -/
theorem c1_answer_text_ignores_reasoning_witness :
    (∀ m ∈ ([.streamEvent (.contentBlockDelta (.thinkingDelta "let me see")),
             .streamEvent (.contentBlockDelta (.textDelta "Hello ")),
             .streamEvent (.contentBlockDelta (.thinkingDelta "more thought")),
             .streamEvent (.contentBlockDelta (.textDelta "world"))] : List Message),
        isDeltaEvent m = true)
    ∧ (consumeStream initSession
          (([.streamEvent (.contentBlockDelta (.thinkingDelta "let me see")),
             .streamEvent (.contentBlockDelta (.textDelta "Hello ")),
             .streamEvent (.contentBlockDelta (.thinkingDelta "more thought")),
             .streamEvent (.contentBlockDelta (.textDelta "world"))] : List Message)
            ++ [Message.result "success"])).responseText
        = concatList (answerPayloads
            [.streamEvent (.contentBlockDelta (.thinkingDelta "let me see")),
             .streamEvent (.contentBlockDelta (.textDelta "Hello ")),
             .streamEvent (.contentBlockDelta (.thinkingDelta "more thought")),
             .streamEvent (.contentBlockDelta (.textDelta "world"))]) :=
  ⟨by decide, c1_answer_text_ignores_reasoning _ (by decide)⟩

/-- C2: a stream whose terminal event is a non-success `result` makes the
run fail with that subtype and exit non-zero, even if answer deltas preceded
it; folding stops at the `result` message (nothing after it is consumed), and
the single fold is never re-run. -/
theorem c2_failure_result_fatal (msgs : List Message) (reason : String)
    (h1 : ∀ m ∈ msgs, isResultMsg m = false) (h2 : reason ≠ "success") :
    runGenerate (msgs ++ [Message.result reason]) = RunOutcome.failure reason
    ∧ exitCode (runGenerate (msgs ++ [Message.result reason])) = some 1
    ∧ ∀ extra, consumeStream initSession (msgs ++ Message.result reason :: extra)
        = consumeStream initSession (msgs ++ [Message.result reason]) := by
  have hse := consume_result_streamError msgs reason initSession h1
  rw [if_neg h2] at hse
  have hrun : runGenerate (msgs ++ [Message.result reason]) = RunOutcome.failure reason := by
    simp only [runGenerate]
    rw [hse]
  exact ⟨hrun, by rw [hrun]; rfl,
    fun extra => consume_result_stops msgs reason extra initSession h1⟩

/-- Witness for C2: a stream with one answer delta then a failed result. -/
theorem c2_failure_result_fatal_witness :
    ((∀ m ∈ ([.streamEvent (.contentBlockDelta (.textDelta "part"))] : List Message),
        isResultMsg m = false) ∧ ("error_max_turns" : String) ≠ "success")
    ∧ (runGenerate (([.streamEvent (.contentBlockDelta (.textDelta "part"))] : List Message)
          ++ [Message.result "error_max_turns"]) = RunOutcome.failure "error_max_turns"
      ∧ exitCode (runGenerate ([.streamEvent (.contentBlockDelta (.textDelta "part"))]
          ++ [Message.result "error_max_turns"])) = some 1
      ∧ ∀ extra, consumeStream initSession
            ([.streamEvent (.contentBlockDelta (.textDelta "part"))]
              ++ Message.result "error_max_turns" :: extra)
          = consumeStream initSession
            ([.streamEvent (.contentBlockDelta (.textDelta "part"))]
              ++ [Message.result "error_max_turns"])) :=
  ⟨⟨by decide, by decide⟩, c2_failure_result_fatal _ _ (by decide) (by decide)⟩

/-- C3: a stream that ends in `Result(Success)` without any answer delta
leaves `responseText` empty, so the caller reports the dedicated
empty-response error — an outcome distinct from every service failure — and
exits non-zero instead of reporting a successful empty result. -/
theorem c3_empty_success_guard (msgs : List Message)
    (h1 : ∀ m ∈ msgs, isResultMsg m = false)
    (h2 : ∀ m ∈ msgs, isTextDelta m = false) :
    runGenerate (msgs ++ [Message.result "success"]) = RunOutcome.emptyResponse
    ∧ exitCode (runGenerate (msgs ++ [Message.result "success"])) = some 1
    ∧ ∀ r, RunOutcome.emptyResponse ≠ RunOutcome.failure r := by
  have hse := consume_result_streamError msgs "success" initSession h1
  rw [if_pos rfl, show initSession.streamError = none from rfl] at hse
  have hrt := consume_result_responseText_noText msgs "success" initSession h1 h2
  rw [show initSession.responseText = "" from rfl] at hrt
  have hrun : runGenerate (msgs ++ [Message.result "success"]) = RunOutcome.emptyResponse := by
    simp only [runGenerate]
    rw [hse, hrt, if_pos (by decide)]
  exact ⟨hrun, by rw [hrun]; rfl, fun r => by simp⟩

/-- Witness for C3: a reasoning-only stream ending in success. -/
theorem c3_empty_success_guard_witness :
    ((∀ m ∈ ([.streamEvent (.contentBlockDelta (.thinkingDelta "hmm")),
              .streamEvent .contentBlockStop] : List Message), isResultMsg m = false)
      ∧ (∀ m ∈ ([.streamEvent (.contentBlockDelta (.thinkingDelta "hmm")),
              .streamEvent .contentBlockStop] : List Message), isTextDelta m = false))
    ∧ (runGenerate (([.streamEvent (.contentBlockDelta (.thinkingDelta "hmm")),
              .streamEvent .contentBlockStop] : List Message)
          ++ [Message.result "success"]) = RunOutcome.emptyResponse
      ∧ exitCode (runGenerate ([.streamEvent (.contentBlockDelta (.thinkingDelta "hmm")),
              .streamEvent .contentBlockStop]
          ++ [Message.result "success"])) = some 1
      ∧ ∀ r, RunOutcome.emptyResponse ≠ RunOutcome.failure r) :=
  ⟨⟨by decide, by decide⟩, c3_empty_success_guard _ (by decide) (by decide)⟩

/-! ### Parser lemmas and claims -/

/-- Prepending a character that does not begin an occurrence of `pat` shifts
the first occurrence by one. -/
theorem findSub_cons_shift (pat : List Char) (c : Char) (l : List Char)
    (h : pat.isPrefixOf (c :: l) = false) :
    findSub pat (c :: l) = (findSub pat l).map (· + 1) := by
  simp [findSub, h]

/-- Searching from a positive start position never examines a prepended
character. -/
theorem findSubFrom_cons_succ (pat : List Char) (c : Char) (l : List Char) (k : Nat) :
    findSubFrom pat (c :: l) (k + 1) = (findSubFrom pat l k).map (· + 1) := by
  simp only [findSubFrom, List.drop_succ_cons]
  cases hfs : findSub pat (l.drop k) with
  | none => simp
  | some x => simp [Nat.add_assoc]

/-- The lazy capture is unchanged by prepending a character that does not
begin an occurrence of the opening marker: the closing marker is only ever
searched for after the opening marker, and the captured slice shifts with
the text. -/
theorem captureBetween_cons (pat1 pat2 : List Char) (c : Char) (l : List Char)
    (h : pat1.isPrefixOf (c :: l) = false) :
    captureBetween pat1 pat2 (c :: l) = captureBetween pat1 pat2 l := by
  simp only [captureBetween, findSub_cons_shift pat1 c l h]
  cases hfs : findSub pat1 l with
  | none => simp
  | some i =>
    simp only [Option.map_some']
    rw [show i + 1 + pat1.length = (i + pat1.length) + 1 from by omega,
      findSubFrom_cons_succ]
    cases hj : findSubFrom pat2 l (i + pat1.length) with
    | none => simp
    | some j =>
      simp only [Option.map_some']
      rw [List.take_succ_cons, List.drop_succ_cons]

/-- The greedy capture is likewise unchanged by prepending such a character. -/
theorem captureToEnd_cons (pat : List Char) (c : Char) (l : List Char)
    (h : pat.isPrefixOf (c :: l) = false) :
    captureToEnd pat (c :: l) = captureToEnd pat l := by
  simp only [captureToEnd, findSub_cons_shift pat c l h]
  cases hfs : findSub pat l with
  | none => simp
  | some i =>
    simp only [Option.map_some']
    rw [show i + 1 + pat.length = (i + pat.length) + 1 from by omega,
      List.drop_succ_cons]

/-- If the opening marker never occurs, the lazy capture fails. -/
theorem captureBetween_none (pat1 pat2 s : List Char) (h : findSub pat1 s = none) :
    captureBetween pat1 pat2 s = none := by
  simp [captureBetween, h]

/-- If the marker never occurs, the greedy capture fails. -/
theorem captureToEnd_none (pat s : List Char) (h : findSub pat s = none) :
    captureToEnd pat s = none := by
  simp [captureToEnd, h]

/-- Unfolding of the `commitMessage` field. -/
theorem parseResponse_commitMessage (text : String) :
    (parseResponse text).commitMessage
      = match captureBetween "COMMIT_MESSAGE\n".toList "\nPR_TITLE\n".toList text.toList with
        | some c => trimString (String.mk c)
        | none => text := rfl

/-- Unfolding of the `prTitle` field. -/
theorem parseResponse_prTitle (text : String) :
    (parseResponse text).prTitle
      = match captureBetween "PR_TITLE\n".toList "\nPR_BODY\n".toList text.toList with
        | some c => trimString (String.mk c)
        | none => "" := rfl

/-- Unfolding of the `prBody` field. -/
theorem parseResponse_prBody (text : String) :
    (parseResponse text).prBody
      = match captureToEnd "PR_BODY\n".toList text.toList with
        | some c => trimString (String.mk c)
        | none => "" := rfl

/-- Two parse results with equal fields are equal. -/
theorem parsedResponse_eq_of_fields (p q : ParsedResponse)
    (h1 : p.commitMessage = q.commitMessage) (h2 : p.prTitle = q.prTitle)
    (h3 : p.prBody = q.prBody) : p = q := by
  cases p
  cases q
  simp_all

/-- C5 counterexample: on `"COMMIT_MESSAGE\nfix bug\n\nPR_TITLE\nFix bug"`
(no `PR_BODY`), `prTitle` is not `"Fix bug"`: the `PR_TITLE` capture requires
a following `"\nPR_BODY\n"`, which is absent, so the match fails and the
field defaults to the empty string. -/
theorem c5_no_prbody_marker_cex :
    (parseResponse "COMMIT_MESSAGE\nfix bug\n\nPR_TITLE\nFix bug").prTitle ≠ "Fix bug" := by
  decide

/-- C5 amended: parsing
`"COMMIT_MESSAGE\nfix bug\n\nPR_TITLE\nFix bug"` (no `PR_BODY` marker)
yields `prBody = ""` and also `prTitle = ""` (not `"Fix bug"`), while
`commitMessage = "fix bug"`: each of the first two captures requires the
*next* marker to be present. -/
theorem c5_no_prbody_marker_amended :
    parseResponse "COMMIT_MESSAGE\nfix bug\n\nPR_TITLE\nFix bug"
      = { commitMessage := "fix bug", prTitle := "", prBody := "" } := by
  decide

/-- C6 counterexample: on the marker-free input `"  x  "` the
`commitMessage` fallback is the *raw* input, not the trimmed input as
claimed. -/
theorem c6_fallback_untrimmed_cex :
    (parseResponse "  x  ").commitMessage = "  x  "
    ∧ (parseResponse "  x  ").commitMessage ≠ trimString "  x  " := by
  decide

/-- C6 amended: for every input without an occurrence of
`"COMMIT_MESSAGE\n"`, `commitMessage` is the entire raw (untrimmed) input;
absent `"PR_TITLE\n"` or `"PR_BODY\n"` yield the empty string for their
fields. -/
theorem c6_missing_marker_fallback_amended (text : String)
    (h : findSub "COMMIT_MESSAGE\n".toList text.toList = none) :
    (parseResponse text).commitMessage = text
    ∧ (findSub "PR_TITLE\n".toList text.toList = none → (parseResponse text).prTitle = "")
    ∧ (findSub "PR_BODY\n".toList text.toList = none → (parseResponse text).prBody = "") := by
  refine ⟨?_, fun h2 => ?_, fun h3 => ?_⟩
  · rw [parseResponse_commitMessage, captureBetween_none _ _ _ h]
  · rw [parseResponse_prTitle, captureBetween_none _ _ _ h2]
  · rw [parseResponse_prBody, captureToEnd_none _ _ h3]

/-- Witness for C6 (amended) at the spec's own example input. -/
theorem c6_missing_marker_fallback_witness :
    (findSub "COMMIT_MESSAGE\n".toList "just some text".toList = none)
    ∧ ((parseResponse "just some text").commitMessage = "just some text"
      ∧ (findSub "PR_TITLE\n".toList "just some text".toList = none →
          (parseResponse "just some text").prTitle = "")
      ∧ (findSub "PR_BODY\n".toList "just some text".toList = none →
          (parseResponse "just some text").prBody = "")) :=
  ⟨by decide, c6_missing_marker_fallback_amended "just some text" (by decide)⟩

/-- C7: round-trip of the constructed three-section answer text —
parsing `"COMMIT_MESSAGE\nA\n\nPR_TITLE\nB\n\nPR_BODY\nC"` yields exactly
`{commitMessage := "A", prTitle := "B", prBody := "C"}`. -/
theorem c7_parser_round_trip :
    parseResponse "COMMIT_MESSAGE\nA\n\nPR_TITLE\nB\n\nPR_BODY\nC"
      = { commitMessage := "A", prTitle := "B", prBody := "C" } := by
  decide

/-- C8 counterexample: in
`"aCOMMIT_MESSAGE\nM\nPR_TITLE\nT\nPR_BODY\nB"` the `COMMIT_MESSAGE` marker
occurs only in the middle of a line (preceded by `a`), yet it *is* treated
as a section marker: `commitMessage` is the captured `"M"`, not the
whole-text fallback the claim would require. -/
theorem c8_midline_marker_cex :
    (parseResponse "aCOMMIT_MESSAGE\nM\nPR_TITLE\nT\nPR_BODY\nB").commitMessage = "M"
    ∧ (parseResponse "aCOMMIT_MESSAGE\nM\nPR_TITLE\nT\nPR_BODY\nB").commitMessage
        ≠ "aCOMMIT_MESSAGE\nM\nPR_TITLE\nT\nPR_BODY\nB" := by
  decide

/-- C8 amended: markers are matched literally and case-sensitively, but
anywhere in the text — each must only be followed immediately by a newline,
not start a line.  Whatever single character is prepended on the marker's
line, the sections are still extracted; lower-case marker spellings are
never matched. -/
theorem c8_markers_matched_anywhere_amended :
    (∀ c : Char,
      parseResponse (String.mk (c :: "COMMIT_MESSAGE\nM\nPR_TITLE\nT\nPR_BODY\nB".toList))
        = { commitMessage := "M", prTitle := "T", prBody := "B" })
    ∧ (parseResponse "commit_message\nM\npr_title\nT\npr_body\nB").commitMessage
        = "commit_message\nM\npr_title\nT\npr_body\nB"
    ∧ (parseResponse "commit_message\nM\npr_title\nT\npr_body\nB").prTitle = ""
    ∧ (parseResponse "commit_message\nM\npr_title\nT\npr_body\nB").prBody = "" := by
  refine ⟨?_, by decide, by decide, by decide⟩
  intro c
  by_cases hC : c = 'C'
  · subst hC
    decide
  by_cases hP : c = 'P'
  · subst hP
    decide
  have hbC : ('C' == c) = false := beq_eq_false_iff_ne.mpr (fun he => hC he.symm)
  have hbP : ('P' == c) = false := beq_eq_false_iff_ne.mpr (fun he => hP he.symm)
  have h1 : ("COMMIT_MESSAGE\n".toList).isPrefixOf
      (c :: "COMMIT_MESSAGE\nM\nPR_TITLE\nT\nPR_BODY\nB".toList) = false := by
    rw [show "COMMIT_MESSAGE\n".toList = 'C' :: "OMMIT_MESSAGE\n".toList from rfl]
    simp only [List.isPrefixOf, hbC, Bool.false_and]
  have h2 : ("PR_TITLE\n".toList).isPrefixOf
      (c :: "COMMIT_MESSAGE\nM\nPR_TITLE\nT\nPR_BODY\nB".toList) = false := by
    rw [show "PR_TITLE\n".toList = 'P' :: "R_TITLE\n".toList from rfl]
    simp only [List.isPrefixOf, hbP, Bool.false_and]
  have h3 : ("PR_BODY\n".toList).isPrefixOf
      (c :: "COMMIT_MESSAGE\nM\nPR_TITLE\nT\nPR_BODY\nB".toList) = false := by
    rw [show "PR_BODY\n".toList = 'P' :: "R_BODY\n".toList from rfl]
    simp only [List.isPrefixOf, hbP, Bool.false_and]
  have hs : (String.mk (c :: "COMMIT_MESSAGE\nM\nPR_TITLE\nT\nPR_BODY\nB".toList)).toList
      = c :: "COMMIT_MESSAGE\nM\nPR_TITLE\nT\nPR_BODY\nB".toList := rfl
  have v1 : captureBetween "COMMIT_MESSAGE\n".toList "\nPR_TITLE\n".toList
      "COMMIT_MESSAGE\nM\nPR_TITLE\nT\nPR_BODY\nB".toList = some ['M'] := by decide
  have v2 : captureBetween "PR_TITLE\n".toList "\nPR_BODY\n".toList
      "COMMIT_MESSAGE\nM\nPR_TITLE\nT\nPR_BODY\nB".toList = some ['T'] := by decide
  have v3 : captureToEnd "PR_BODY\n".toList
      "COMMIT_MESSAGE\nM\nPR_TITLE\nT\nPR_BODY\nB".toList = some ['B'] := by decide
  refine parsedResponse_eq_of_fields _ _ ?_ ?_ ?_
  · rw [parseResponse_commitMessage, hs, captureBetween_cons _ _ _ _ h1, v1]
    exact (by decide : trimString (String.mk ['M']) = "M")
  · rw [parseResponse_prTitle, hs, captureBetween_cons _ _ _ _ h2, v2]
    exact (by decide : trimString (String.mk ['T']) = "T")
  · rw [parseResponse_prBody, hs, captureToEnd_cons _ _ _ h3, v3]
    exact (by decide : trimString (String.mk ['B']) = "B")

/-- C9 counterexample: a whitespace-only staged diff is a non-empty
string, yet the unstaged diff is returned — the code tests
`staged.trim()`, not `staged`. -/
theorem c9_whitespace_staged_cex :
    (" " : String) ≠ "" ∧ getGitDiff " " "unstaged content" = "unstaged content" := by
  decide

/-- C9 amended: the diff fetch returns the staged diff whenever the
staged diff is non-blank (non-empty after trimming whitespace), and
otherwise returns the unstaged diff. -/
theorem c9_staged_diff_amended (staged unstaged : String) :
    (trimString staged ≠ "" → getGitDiff staged unstaged = staged)
    ∧ (trimString staged = "" → getGitDiff staged unstaged = unstaged) := by
  constructor
  · intro h
    simp [getGitDiff, h]
  · intro h
    simp [getGitDiff, h]

/-- Witness for C9 (amended) at a non-blank and at a blank staged diff. -/
theorem c9_staged_diff_amended_witness :
    (trimString "diff --cached output" ≠ ""
      ∧ getGitDiff "diff --cached output" "other" = "diff --cached output")
    ∧ (trimString " \n" = "" ∧ getGitDiff " \n" "other" = "other") :=
  ⟨⟨by decide, (c9_staged_diff_amended "diff --cached output" "other").1 (by decide)⟩,
   ⟨by decide, (c9_staged_diff_amended " \n" "other").2 (by decide)⟩⟩

/-- C10 counterexample: the claim's universal statement fails — the
working directory `"/acme/acme"` has final path segment `acme` (it ends in
`"/acme"` with no trailing slash), yet resolution returns `some "acme"`,
because `"/acme/"` also occurs as an interior substring of the path. -/
theorem c10_final_segment_cex :
    List.isSuffixOf "/acme".toList "/acme/acme".toList = true
    ∧ detectCompany "/acme/acme" ["acme"] = some "acme" := by
  decide

/-- C10 amended: resolution tests whether the working directory contains
the substring `"/id/"` with a slash on both sides, and returns `none` exactly
when no available id occurs that way — in particular for a directory whose
only occurrence of the id is as its final path segment (ending in `"/id"`
with no trailing slash), and the run then aborts as profile-not-found. -/
theorem c10_interior_segment_amended (cwd : String) (prompts : List String) :
    detectCompany cwd prompts = none
      ↔ ∀ name ∈ prompts, findSub ("/" ++ name ++ "/").toList cwd.toList = none := by
  simp [detectCompany, List.find?_eq_none, Option.not_isSome_iff_eq_none]

/-- Witness for C10 (amended): a directory whose final segment names the id
resolves to `none`. -/
theorem c10_interior_segment_amended_witness :
    detectCompany "/home/u/work/acme" ["acme"] = none :=
  (c10_interior_segment_amended "/home/u/work/acme" ["acme"]).mpr (by decide)

end GitGen
